import Mathlib

/-!
Verification of the market-data aggregation core of fin-chat3 against its
natural-language specification.  Each component of the subsystem
(LRU cache, circuit breaker, provider optimizer, provider registries,
market service read path, normalizer) is shallowly embedded as executable
Lean definitions translated from the TypeScript source, and the spec
claims are settled as theorems about those definitions.

Time is modelled as milliseconds (`Nat`); each stateful operation takes the
current time `now` explicitly where the source reads `Date.now()`.
-/

namespace FinChat

/-! ## LRU cache (`src/server/utils/cache.ts`)

A JS `Map` preserves insertion order and has unique keys; it is modelled as
an association list whose head is the oldest (least recently used) entry.
-/

/-- One stored cache entry: `{ value, expiry }` with `expiry` an absolute
time in milliseconds (`cache.ts`, `set`: `expiry: Date.now() + ttlMs`). -/
structure CacheEntry (T : Type) where
  value : T
  expiry : Nat
  deriving DecidableEq, Repr

/-- `Map.get(key)` on the association-list model of a JS `Map`. -/
def mapFind (key : String) : List (String × CacheEntry T) → Option (CacheEntry T)
  | [] => none
  | kv :: rest => if kv.1 = key then some kv.2 else mapFind key rest

/-- `Map.delete(key)` on the association-list model.  Keys of a JS `Map` are
unique, so removing every pair with the key is the same operation. -/
def mapDelete (key : String) : List (String × CacheEntry T) → List (String × CacheEntry T)
  | [] => []
  | kv :: rest => if kv.1 = key then mapDelete key rest else kv :: mapDelete key rest

/-- The `LRUCache<T>` class state: fixed `capacity` and the backing map. -/
structure LRUCache (T : Type) where
  capacity : Nat
  cache : List (String × CacheEntry T)
  deriving DecidableEq, Repr

namespace LRUCache

/-- `new LRUCache(capacity)`: empty backing map. -/
def empty (T : Type) (capacity : Nat := 1000) : LRUCache T :=
  ⟨capacity, []⟩

/-- `LRUCache.get(key)`: miss on absent key; lazily expire when
`Date.now() > item.expiry`; on a live hit move the entry to the
most-recently-used (last) position and return its value. -/
def get (c : LRUCache T) (now : Nat) (key : String) : Option T × LRUCache T :=
  match mapFind key c.cache with
  | none => (none, c)
  | some item =>
    if now > item.expiry then
      (none, { c with cache := mapDelete key c.cache })
    else
      (some item.value, { c with cache := mapDelete key c.cache ++ [(key, item)] })

/-- `LRUCache.set(key, value, ttlMs)`: delete an existing entry for the key;
otherwise, when at capacity, delete the first (least recently used) key if
one exists; then insert at the most-recently-used position with
`expiry = now + ttlMs`. -/
def set (c : LRUCache T) (now : Nat) (key : String) (value : T) (ttlMs : Nat) : LRUCache T :=
  let base :=
    if (mapFind key c.cache).isSome then
      mapDelete key c.cache
    else if c.capacity ≤ c.cache.length then
      match c.cache with
      | [] => ([] : List (String × CacheEntry T))
      | _ :: t => t
    else c.cache
  { c with cache := base ++ [(key, ⟨value, now + ttlMs⟩)] }

/-- `LRUCache.has(key)`: like `get` but without the recency move; still
lazily expires a stale entry. -/
def has (c : LRUCache T) (now : Nat) (key : String) : Bool × LRUCache T :=
  match mapFind key c.cache with
  | none => (false, c)
  | some item =>
    if now > item.expiry then (false, { c with cache := mapDelete key c.cache })
    else (true, c)

/-- `LRUCache.delete(key)`. -/
def delete (c : LRUCache T) (key : String) : Bool × LRUCache T :=
  ((mapFind key c.cache).isSome, { c with cache := mapDelete key c.cache })

/-- `LRUCache.size()`. -/
def size (c : LRUCache T) : Nat :=
  c.cache.length

end LRUCache

/-- One public cache operation, timestamped where the source consults
`Date.now()`. -/
inductive CacheOp (T : Type) where
  | get (now : Nat) (key : String)
  | set (now : Nat) (key : String) (value : T) (ttlMs : Nat)
  | has (now : Nat) (key : String)
  | del (key : String)
  deriving Repr

/-- Run one cache operation for its state effect. -/
def applyOp (c : LRUCache T) : CacheOp T → LRUCache T
  | .get now key => (c.get now key).2
  | .set now key v ttl => c.set now key v ttl
  | .has now key => (c.has now key).2
  | .del key => (c.delete key).2

/-- Run a sequence of cache operations from a starting state. -/
def applyOps (c : LRUCache T) (ops : List (CacheOp T)) : LRUCache T :=
  ops.foldl applyOp c

/-! ### Cache lemmas -/

theorem mapDelete_length_le (key : String) (m : List (String × CacheEntry T)) :
    (mapDelete key m).length ≤ m.length := by
  induction m with
  | nil => simp [mapDelete]
  | cons kv rest ih =>
    simp only [mapDelete]
    split
    · exact Nat.le_succ_of_le ih
    · simpa using Nat.succ_le_succ ih

theorem mapDelete_length_of_found (key : String) (m : List (String × CacheEntry T))
    (h : (mapFind key m).isSome) : (mapDelete key m).length + 1 ≤ m.length := by
  induction m with
  | nil => simp [mapFind] at h
  | cons kv rest ih =>
    simp only [mapFind, mapDelete] at *
    split at h
    · next heq =>
      simp only [if_pos heq, List.length_cons]
      exact Nat.succ_le_succ (mapDelete_length_le key rest)
    · next heq =>
      simp only [if_neg heq, List.length_cons]
      exact Nat.succ_le_succ (ih h)

theorem mapFind_delete_append (key : String) (m l2 : List (String × CacheEntry T)) :
    mapFind key (mapDelete key m ++ l2) = mapFind key l2 := by
  induction m with
  | nil => simp [mapDelete]
  | cons kv rest ih =>
    simp only [mapDelete]
    split
    · exact ih
    · next hne => simpa [mapFind, hne] using ih

theorem mapFind_append_of_none (key : String) (m l2 : List (String × CacheEntry T))
    (h : mapFind key m = none) : mapFind key (m ++ l2) = mapFind key l2 := by
  induction m with
  | nil => simp
  | cons kv rest ih =>
    simp only [mapFind] at h ⊢
    split at h
    · exact absurd h (by simp)
    · next hne => simpa [mapFind, hne] using ih h

/-- After `set key value ttl`, the entry found for `key` is exactly the one
just written, whatever the prior state. -/
theorem mapFind_after_set (c : LRUCache T) (now : Nat) (key : String) (v : T) (ttl : Nat) :
    mapFind key (c.set now key v ttl).cache = some ⟨v, now + ttl⟩ := by
  simp only [LRUCache.set]
  split
  · exact (mapFind_delete_append key c.cache _).trans (by simp [mapFind])
  · split
    · rcases hm : c.cache with _ | ⟨kv, rest⟩
      · simp [mapFind]
      · next hnone _ =>
        rw [Option.not_isSome_iff_eq_none] at hnone
        rw [hm] at hnone
        simp only [mapFind] at hnone
        split at hnone
        · exact absurd hnone (by simp)
        · exact (mapFind_append_of_none key rest _ hnone).trans (by simp [mapFind])
    · next hnone _ =>
      rw [Option.not_isSome_iff_eq_none] at hnone
      exact (mapFind_append_of_none key c.cache _ hnone).trans (by simp [mapFind])

theorem get_size_le (c : LRUCache T) (now : Nat) (key : String) :
    (c.get now key).2.size ≤ c.size := by
  simp only [LRUCache.get, LRUCache.size]
  split
  · exact le_refl _
  · next item heq =>
    split
    · exact mapDelete_length_le key c.cache
    · have hs : (mapFind key c.cache).isSome := by rw [heq]; rfl
      have := mapDelete_length_of_found key c.cache hs
      simpa using this

theorem has_size_le (c : LRUCache T) (now : Nat) (key : String) :
    (c.has now key).2.size ≤ c.size := by
  simp only [LRUCache.has, LRUCache.size]
  split
  · exact le_refl _
  · split
    · exact mapDelete_length_le key c.cache
    · exact le_refl _

theorem delete_size_le (c : LRUCache T) (key : String) :
    (c.delete key).2.size ≤ c.size := by
  simpa [LRUCache.delete, LRUCache.size] using mapDelete_length_le key c.cache

theorem set_size_le (c : LRUCache T) (now : Nat) (key : String) (v : T) (ttl : Nat)
    (hcap : 1 ≤ c.capacity) (h : c.size ≤ c.capacity) :
    (c.set now key v ttl).size ≤ c.capacity := by
  obtain ⟨cap, l⟩ := c
  simp only [LRUCache.size] at h hcap ⊢
  simp only [LRUCache.set, List.length_append]
  split
  · next hfound =>
    have := mapDelete_length_of_found key l hfound
    simp only [List.length_cons, List.length_nil]
    omega
  · split
    · next hlen =>
      cases l with
      | nil =>
        simp only [List.length_nil] at hlen
        simp only [List.length_cons, List.length_nil]
        omega
      | cons kv rest =>
        simp only [List.length_cons] at h
        simp only [List.length_cons, List.length_nil]
        omega
    · next hlen =>
      simp only [List.length_cons, List.length_nil]
      simp only [not_le] at hlen
      omega

theorem applyOp_capacity (c : LRUCache T) (op : CacheOp T) :
    (applyOp c op).capacity = c.capacity := by
  cases op with
  | get now key =>
    simp only [applyOp, LRUCache.get]
    split
    · rfl
    · split <;> rfl
  | set now key v ttl =>
    simp only [applyOp, LRUCache.set]
  | has now key =>
    simp only [applyOp, LRUCache.has]
    split
    · rfl
    · split <;> rfl
  | del key =>
    simp only [applyOp, LRUCache.delete]

theorem applyOp_size_le (c : LRUCache T) (op : CacheOp T)
    (hcap : 1 ≤ c.capacity) (h : c.size ≤ c.capacity) :
    (applyOp c op).size ≤ c.capacity := by
  cases op with
  | get now key => exact le_trans (get_size_le c now key) h
  | set now key v ttl => exact set_size_le c now key v ttl hcap h
  | has now key => exact le_trans (has_size_le c now key) h
  | del key => exact le_trans (delete_size_le c key) h

theorem applyOps_size_le (ops : List (CacheOp T)) (c : LRUCache T)
    (hcap : 1 ≤ c.capacity) (h : c.size ≤ c.capacity) :
    (applyOps c ops).size ≤ c.capacity := by
  induction ops generalizing c with
  | nil => exact h
  | cons op rest ih =>
    have hc := applyOp_capacity c op
    have := ih (applyOp c op) (hc ▸ hcap) (hc ▸ applyOp_size_le c op hcap h)
    simpa [applyOps, hc] using this

/-- Claim C10: starting from an empty `LRUCache` with capacity `C ≥ 1`, no
finite sequence of `get`/`set`/`has`/`delete` operations can make `size()`
exceed `C`: `set` evicts before inserting a new key at capacity, and
overwriting an existing key never grows the map. -/
theorem lruCache_size_le_capacity (T : Type) (C : Nat) (hC : 1 ≤ C)
    (ops : List (CacheOp T)) :
    (applyOps (LRUCache.empty T C) ops).size ≤ C := by
  exact applyOps_size_le ops (LRUCache.empty T C) hC (by simp [LRUCache.empty, LRUCache.size])

/-- Witness for C10 at a concrete capacity and operation sequence. -/
theorem lruCache_size_le_capacity_witness :
    1 ≤ 2 ∧
      (applyOps (LRUCache.empty Nat 2)
        [CacheOp.set 0 "a" 1 10, CacheOp.set 0 "b" 2 10, CacheOp.set 0 "c" 3 10,
         CacheOp.get 1 "c", CacheOp.del "b"]).size ≤ 2 :=
  ⟨by decide,
   lruCache_size_le_capacity Nat 2 (by decide)
     [CacheOp.set 0 "a" 1 10, CacheOp.set 0 "b" 2 10, CacheOp.set 0 "c" 3 10,
      CacheOp.get 1 "c", CacheOp.del "b"]⟩

/-- Claim C8 (amended): a value written by `set` with `ttlMs = T` at time
`now`, with no intervening operation, is returned by `get` at `now + t`
exactly when `t ≤ T`, and is absent exactly when `t > T`.  The expiry test
in `LRUCache.get` is the strict comparison `Date.now() > item.expiry`, so at
exactly `t = T` the value is still returned (the original claim demanded
absence there). -/
theorem get_after_set_ttl (c : LRUCache T) (now : Nat) (key : String) (v : T)
    (ttl t : Nat) :
    ((c.set now key v ttl).get (now + t) key).1 =
      if t ≤ ttl then some v else none := by
  have hfind := mapFind_after_set c now key v ttl
  simp only [LRUCache.get, hfind]
  by_cases hle : t ≤ ttl
  · have hngt : ¬ now + t > now + ttl := by omega
    simp [hle, hngt]
  · have hgt : now + t > now + ttl := by omega
    simp [hle, hgt]

/-- Claim C8, counterexample to the claim as stated: a value set at time 0
with `ttlMs = 5` is still returned by a `get` at exactly `t = T = 5`,
whereas the claim requires absence for every `t ≥ T` including `t = T`. -/
theorem get_at_exact_ttl_counterexample :
    (((LRUCache.empty Nat 2).set 0 "k" 42 5).get 5 "k").1 = some 42 := by
  decide

/-! ## Circuit breaker (`src/unnamed/part_006`, class `CircuitBreaker`)

The wrapped async operation is abstracted by its outcome: `opOk = true`
models `operation()` resolving, `opOk = false` models it rejecting.  The
third component of `execute`'s result records whether the operation was
invoked at all.
-/

/-- `CircuitState` enum. -/
inductive CircuitState where
  | CLOSED
  | OPEN
  | HALF_OPEN
  deriving DecidableEq, Repr

/-- `CircuitBreaker` instance state together with its constructor
parameters (defaults from the source: 5 / 30000 ms / 2). -/
structure CircuitBreaker where
  state : CircuitState := .CLOSED
  failureCount : Nat := 0
  lastFailureTime : Nat := 0
  successCount : Nat := 0
  failureThreshold : Nat := 5
  recoveryTimeMs : Nat := 30000
  successThreshold : Nat := 2
  deriving DecidableEq, Repr

namespace CircuitBreaker

/-- `onSuccess()`: reset `failureCount`; in HALF_OPEN count probe successes
and close once `successThreshold` is reached, otherwise close directly. -/
def onSuccess (cb : CircuitBreaker) : CircuitBreaker :=
  let cb := { cb with failureCount := 0 }
  if cb.state = .HALF_OPEN then
    let cb := { cb with successCount := cb.successCount + 1 }
    if cb.successThreshold ≤ cb.successCount then { cb with state := .CLOSED } else cb
  else
    { cb with state := .CLOSED }

/-- `onFailure()`: count the failure, stamp `lastFailureTime`, and trip to
OPEN once `failureCount` reaches `failureThreshold`. -/
def onFailure (cb : CircuitBreaker) (now : Nat) : CircuitBreaker :=
  let cb := { cb with failureCount := cb.failureCount + 1, lastFailureTime := now }
  if cb.failureThreshold ≤ cb.failureCount then { cb with state := .OPEN } else cb

/-- Outcome of one `execute` call. -/
inductive ExecOutcome where
  | circuitOpen
  | opFailed
  | opSucceeded
  deriving DecidableEq, Repr

/-- `execute(operation)`: fail fast while OPEN inside the recovery window;
past it, probe in HALF_OPEN with a reset success counter; otherwise run the
operation and apply `onSuccess`/`onFailure`.  Returns the outcome, the new
breaker state, and whether the operation was invoked. -/
def execute (cb : CircuitBreaker) (now : Nat) (opOk : Bool) :
    ExecOutcome × CircuitBreaker × Bool :=
  if cb.state = .OPEN then
    if (now : ℤ) - (cb.lastFailureTime : ℤ) < (cb.recoveryTimeMs : ℤ) then
      (.circuitOpen, cb, false)
    else
      let probe : CircuitBreaker := { cb with state := .HALF_OPEN, successCount := 0 }
      if opOk then (.opSucceeded, onSuccess probe, true)
      else (.opFailed, onFailure probe now, true)
  else
    if opOk then (.opSucceeded, onSuccess cb, true)
    else (.opFailed, onFailure cb now, true)

end CircuitBreaker

/-- Claim C3: for a breaker in state OPEN, `execute` fails immediately with
a circuit-open outcome and does not invoke the operation while
`now - lastFailureTime < recoveryTimeMs`; once the recovery window has
elapsed it transitions to HALF_OPEN, resets the probe-success counter, and
then invokes the operation from that probe state. -/
theorem circuitBreaker_open_behaviour (cb : CircuitBreaker) (now : Nat) (opOk : Bool)
    (h : cb.state = .OPEN) :
    ((now : ℤ) - (cb.lastFailureTime : ℤ) < (cb.recoveryTimeMs : ℤ) →
        cb.execute now opOk = (.circuitOpen, cb, false)) ∧
      (¬ ((now : ℤ) - (cb.lastFailureTime : ℤ) < (cb.recoveryTimeMs : ℤ)) →
        (cb.execute now opOk).2.2 = true ∧
          cb.execute now opOk =
            (let probe : CircuitBreaker := { cb with state := .HALF_OPEN, successCount := 0 }
             if opOk then (.opSucceeded, CircuitBreaker.onSuccess probe, true)
             else (.opFailed, CircuitBreaker.onFailure probe now, true))) := by
  constructor
  · intro hlt
    simp [CircuitBreaker.execute, h, hlt]
  · intro hge
    constructor
    · simp only [CircuitBreaker.execute, h, if_pos rfl, if_neg hge]
      cases opOk <;> rfl
    · simp [CircuitBreaker.execute, h, hge]

/-- Witness for C3 at a concrete OPEN breaker inside the recovery window
(`now = 10`, `lastFailureTime = 0`, `recoveryTimeMs = 30000`). -/
theorem circuitBreaker_open_behaviour_witness :
    ({ state := .OPEN : CircuitBreaker }.state = .OPEN) ∧
      (((10 : ℤ) - ((0 : Nat) : ℤ) < ((30000 : Nat) : ℤ) →
          CircuitBreaker.execute { state := .OPEN } 10 true =
            (.circuitOpen, { state := .OPEN }, false)) ∧
        (¬ ((10 : ℤ) - ((0 : Nat) : ℤ) < ((30000 : Nat) : ℤ)) →
          (CircuitBreaker.execute { state := .OPEN } 10 true).2.2 = true ∧
            CircuitBreaker.execute { state := .OPEN } 10 true =
              (let probe : CircuitBreaker :=
                { ({ state := .OPEN } : CircuitBreaker) with
                    state := .HALF_OPEN, successCount := 0 }
               if true then (.opSucceeded, CircuitBreaker.onSuccess probe, true)
               else (.opFailed, CircuitBreaker.onFailure probe 10, true)))) :=
  ⟨rfl, circuitBreaker_open_behaviour { state := .OPEN } 10 true rfl⟩

/-- A breaker driven through a concrete history refuting claim C4: five
failures at time 0 trip it to OPEN; at time 30000 the recovery window has
elapsed and a successful probe leaves it HALF_OPEN with `failureCount`
reset to 0; the next call at time 30001 fails. -/
def breakerAfterHalfOpenFailure : CircuitBreaker :=
  let fail5 := fun (cb : CircuitBreaker) => (cb.execute 0 false).2.1
  let cb5 := fail5 (fail5 (fail5 (fail5 (fail5 {}))))
  let cb6 := (cb5.execute 30000 true).2.1
  (cb6.execute 30001 false).2.1

/-- Claim C4, counterexample: after a success in HALF_OPEN has reset the
failure count, a single failing call leaves the breaker in HALF_OPEN
(`onFailure` only trips to OPEN when `failureCount` reaches
`failureThreshold`), contradicting the claim that any failure in HALF_OPEN
returns it to OPEN immediately. -/
theorem halfOpen_failure_counterexample :
    breakerAfterHalfOpenFailure.state = .HALF_OPEN ∧
      breakerAfterHalfOpenFailure.state ≠ .OPEN := by
  constructor
  · rfl
  · decide

/-- Claim C4 (amended): a failing call on a HALF_OPEN breaker returns it to
OPEN exactly when the incremented failure count reaches `failureThreshold`.
Right after the OPEN → HALF_OPEN transition the count is still at the
threshold, so the first failure re-opens the breaker; but once a success in
HALF_OPEN has reset the count to 0, a single failure leaves it HALF_OPEN. -/
theorem halfOpen_failure_opens_iff (cb : CircuitBreaker) (now : Nat)
    (h : cb.state = .HALF_OPEN) :
    ((cb.execute now false).2.1.state = .OPEN ↔
      cb.failureThreshold ≤ cb.failureCount + 1) := by
  have hne : ¬ cb.state = .OPEN := by rw [h]; intro hc; cases hc
  simp only [CircuitBreaker.execute, if_neg hne, Bool.false_eq_true, if_false]
  simp only [CircuitBreaker.onFailure]
  constructor
  · intro hst
    by_contra hlt
    rw [if_neg hlt] at hst
    simp only at hst
    rw [h] at hst
    cases hst
  · intro hth
    rw [if_pos hth]

/-- Witness for C4 (amended) at a concrete HALF_OPEN breaker whose failure
count was reset by a probe success: `failureCount = 0`, threshold 5, so the
failing call does not re-open it. -/
theorem halfOpen_failure_opens_iff_witness :
    ({ state := .HALF_OPEN, failureCount := 0 : CircuitBreaker }.state = .HALF_OPEN) ∧
      (((CircuitBreaker.execute { state := .HALF_OPEN, failureCount := 0 } 40000 false).2.1.state
          = .OPEN) ↔
        ({ state := .HALF_OPEN, failureCount := 0 : CircuitBreaker }.failureThreshold ≤
          { state := .HALF_OPEN, failureCount := 0 : CircuitBreaker }.failureCount + 1)) :=
  ⟨rfl, halfOpen_failure_opens_iff { state := .HALF_OPEN, failureCount := 0 } 40000 rfl⟩

/-! ## Provider model and performance optimizer
(`src/server/utils/providerOptimizer.ts`, `src/server/providers/cryptoProviders.ts`)

A provider is abstracted by its static identity plus the behaviour of its
`fetchSnapshot` when invoked: it either throws or returns a list of
(already normalized) records, here identified by numbers.
-/

/-- Behaviour of one `provider.fetchSnapshot(symbols)` call. -/
inductive FetchOutcome where
  | throws
  | returns (records : List Nat)
  deriving DecidableEq, Repr

/-- Static data of one provider as the registries and the optimizer see it:
`id` and `priority` (the `{ id, priority }` bound used by
`optimizeProviderOrder`), the `snapshot` capability flag, the stock-only
`requiresKey` flag, and the modelled `fetchSnapshot` behaviour. -/
structure ProviderM where
  id : String
  priority : ℚ
  snapshotCap : Bool
  requiresKey : Bool
  outcome : FetchOutcome
  deriving DecidableEq, Repr

/-- `ProviderMetrics` record of the optimizer. -/
structure ProviderMetrics where
  successRate : ℚ
  averageResponseTime : ℚ
  recentFailures : Nat
  totalRequests : Nat
  lastSuccessTime : Nat
  consecutiveFailures : Nat
  deriving DecidableEq, Repr

/-- The metrics `getMetrics` installs for a provider never seen before:
`successRate 1.0`, `averageResponseTime 0`, no failures, `lastSuccessTime`
set to the current time. -/
def freshMetrics (now : Nat) : ProviderMetrics :=
  { successRate := 1, averageResponseTime := 0, recentFailures := 0,
    totalRequests := 0, lastSuccessTime := now, consecutiveFailures := 0 }

/-- `calculateDynamicPriority(provider, metrics)`: start from the static
priority; subtract `2 * (successRate - 0.5)`; subtract 1 when the average
response time is under 1000 ms; add 2 when it is over 5000 ms; add
`0.5 * consecutiveFailures`; subtract 0.5 when the last success is within
60 s; clamp with `Math.max(0, ...)`. -/
def calculateDynamicPriority (priority : ℚ) (m : ProviderMetrics) (now : Nat) : ℚ :=
  let p := priority - (m.successRate - 1/2) * 2
  let p := if m.averageResponseTime < 1000 then p - 1 else p
  let p := if 5000 < m.averageResponseTime then p + 2 else p
  let p := p + (m.consecutiveFailures : ℚ) * (1/2)
  let p := if (now : ℤ) - (m.lastSuccessTime : ℤ) < 60000 then p - 1/2 else p
  if p < 0 then 0 else p

/-- Stable insertion of `a` into a list sorted ascending by `key`, placing
`a` after every earlier element with the same key.  Together with `foldr`
this models the (stable) `Array.prototype.sort` with the numeric comparator
`(a, b) => keyA - keyB`. -/
def insSorted (key : α → ℚ) (a : α) : List α → List α
  | [] => [a]
  | b :: t => if key a ≤ key b then a :: b :: t else b :: insSorted key a t

/-- Stable sort ascending by `key` (model of `[...providers].sort(...)`). -/
def sortByKey (key : α → ℚ) (l : List α) : List α :=
  l.foldr (insSorted key) []

/-- The value `providerPriorities.get(id)` holds after the `forEach` pass of
`optimizeProviderOrder`: the dynamic priority computed from the last
provider in the list with this id (later `Map.set` calls overwrite). -/
def storedDynamicPriority (providers : List ProviderM) (metrics : String → ProviderMetrics)
    (now : Nat) (s : String) : Option ℚ :=
  (providers.reverse.find? (fun p => p.id == s)).map
    (fun p => calculateDynamicPriority p.priority (metrics p.id) now)

/-- The comparator key of `optimizeProviderOrder`:
`providerPriorities.get(a.id) || a.priority` — the JS `||` falls back to the
static priority both when the map has no entry for the id and when the
stored dynamic priority is exactly 0 (a falsy number). -/
def comparatorKey (providers : List ProviderM) (metrics : String → ProviderMetrics)
    (now : Nat) (a : ProviderM) : ℚ :=
  match storedDynamicPriority providers metrics now a.id with
  | some v => if v = 0 then a.priority else v
  | none => a.priority

/-- `ProviderOptimizer.optimizeProviderOrder(providers)`: compute the
dynamic priorities into a map keyed by id, then stably sort a copy of the
list by the comparator above. -/
def optimizeProviderOrder (providers : List ProviderM) (metrics : String → ProviderMetrics)
    (now : Nat) : List ProviderM :=
  sortByKey (comparatorKey providers metrics now) providers

/-- Modelled from the spec: section 4.3's `orderByDynamicPriority` — a
stable sort ascending by the clamped dynamic-priority score itself, ties
keeping the original order.  Stated only for comparison with the source's
`optimizeProviderOrder`. -/
def specOrderByDynamicPriority (providers : List ProviderM)
    (metrics : String → ProviderMetrics) (now : Nat) : List ProviderM :=
  sortByKey (fun a => calculateDynamicPriority a.priority (metrics a.id) now) providers

/-- Provider A of the C7 failing input: static priority 2. -/
def optProviderA : ProviderM :=
  { id := "A", priority := 2, snapshotCap := true, requiresKey := false,
    outcome := .returns [] }

/-- Provider B of the C7 failing input: static priority 1. -/
def optProviderB : ProviderM :=
  { id := "B", priority := 1, snapshotCap := true, requiresKey := false,
    outcome := .returns [] }

/-- Claim C7, evaluation at the failing input: with fresh metrics (success
rate 1, fast responses, a success just now) both dynamic scores clamp to
exactly 0, so the comparator's `|| a.priority` falls back to the static
priorities 2 and 1 and the source returns `[B, A]`, while the specified
stable sort by the dynamic scores (a tie at 0) must keep the original
order `[A, B]`. -/
theorem optimizeProviderOrder_zero_score_bug :
    optimizeProviderOrder [optProviderA, optProviderB] (fun _ => freshMetrics 100) 100 =
        [optProviderB, optProviderA] ∧
      specOrderByDynamicPriority [optProviderA, optProviderB]
          (fun _ => freshMetrics 100) 100 =
        [optProviderA, optProviderB] := by
  have hdA : calculateDynamicPriority 2 (freshMetrics 100) 100 = 0 := by
    simp only [calculateDynamicPriority, freshMetrics]
    norm_num
  have hdB : calculateDynamicPriority 1 (freshMetrics 100) 100 = 0 := by
    simp only [calculateDynamicPriority, freshMetrics]
    norm_num
  have hkA : comparatorKey [optProviderA, optProviderB] (fun _ => freshMetrics 100) 100
      optProviderA = 2 := by
    simp [comparatorKey, storedDynamicPriority, optProviderA, optProviderB, hdA]
  have hkB : comparatorKey [optProviderA, optProviderB] (fun _ => freshMetrics 100) 100
      optProviderB = 1 := by
    simp [comparatorKey, storedDynamicPriority, optProviderA, optProviderB, hdB]
  constructor
  · have h21 : ¬ ((2 : ℚ) ≤ 1) := by norm_num
    simp [optimizeProviderOrder, sortByKey, insSorted, hkA, hkB, h21]
  · simp [specOrderByDynamicPriority, sortByKey, insSorted, optProviderA, optProviderB,
      hdA, hdB]

/-! ## Provider registries (`src/server/providers/cryptoProviders.ts`,
`CryptoProviderRegistry.fetchSnapshot` and `StockProviderRegistry.fetchSnapshot`)

Both walks are modelled over an already-computed optimized order plus the
static (constructor-sorted) provider list used by the fallback pass, with
the optimizer's `shouldSkipProvider` abstracted as a predicate `skip` and
the stock registry's `hasRequiredKey` as a predicate `hasKey`.  The
`typeof provider.fetchSnapshot !== 'function'` runtime assertion never
fires in the model (every modelled provider has a `fetchSnapshot`).

Observable events of a walk are recorded in order: `called id` when
`provider.fetchSnapshot` is invoked, and `optRecord id ok` when the
optimizer's `recordProviderRequest` records a success or failure for it.
-/

/-- An observable event of one registry walk. -/
inductive RegEvent where
  | called (id : String)
  | optRecord (id : String) (ok : Bool)
  deriving DecidableEq, Repr

/-- The provider id an event concerns. -/
def RegEvent.pid : RegEvent → String
  | .called i => i
  | .optRecord i _ => i

/-- A provider attempt that cannot win the walk: `fetchSnapshot` throws or
returns an empty array. -/
def failsOrEmpty (p : ProviderM) : Bool :=
  match p.outcome with
  | .throws => true
  | .returns l => l.isEmpty

/-- First pass of `CryptoProviderRegistry.fetchSnapshot`: walk the
optimized order, skipping providers without the `snapshot` capability and
providers vetoed by `shouldSkipProvider`; each attempt goes through
`recordProviderRequest`; the first non-empty result returns immediately.
Returns (winning data, number of attempted providers, events). -/
def cryptoPass1 (skip : String → Bool) : List ProviderM → Option (List Nat) × Nat × List RegEvent
  | [] => (none, 0, [])
  | p :: rest =>
    if p.snapshotCap = false then cryptoPass1 skip rest
    else if skip p.id then cryptoPass1 skip rest
    else
      match p.outcome with
      | .throws =>
        let r := cryptoPass1 skip rest
        (r.1, r.2.1 + 1, .called p.id :: .optRecord p.id false :: r.2.2)
      | .returns l =>
        if l.isEmpty then
          let r := cryptoPass1 skip rest
          (r.1, r.2.1 + 1, .called p.id :: .optRecord p.id true :: r.2.2)
        else
          (some l, 1, [.called p.id, .optRecord p.id true])

/-- Fallback pass of `CryptoProviderRegistry.fetchSnapshot` (runs only when
the first pass attempted zero providers): walk the static list without the
optimizer veto and call `provider.fetchSnapshot` directly (not through
`recordProviderRequest`). -/
def cryptoPass2 : List ProviderM → Option (List Nat) × List RegEvent
  | [] => (none, [])
  | p :: rest =>
    if p.snapshotCap = false then cryptoPass2 rest
    else
      match p.outcome with
      | .throws =>
        let r := cryptoPass2 rest
        (r.1, .called p.id :: r.2)
      | .returns l =>
        if l.isEmpty then
          let r := cryptoPass2 rest
          (r.1, .called p.id :: r.2)
        else
          (some l, [.called p.id])

/-- `CryptoProviderRegistry.fetchSnapshot(symbols)`: optimized pass, then,
only when no provider was attempted, the unfiltered fallback pass; throws
`'All crypto providers failed'` when no pass produced non-empty data. -/
def cryptoFetchSnapshot (skip : String → Bool) (optimized static : List ProviderM) :
    Except String (List Nat) × List RegEvent :=
  let r1 := cryptoPass1 skip optimized
  match r1.1 with
  | some l => (.ok l, r1.2.2)
  | none =>
    if r1.2.1 = 0 then
      let r2 := cryptoPass2 static
      match r2.1 with
      | some l => (.ok l, r1.2.2 ++ r2.2)
      | none => (.error "All crypto providers failed", r1.2.2 ++ r2.2)
    else
      (.error "All crypto providers failed", r1.2.2)

/-- First pass of `StockProviderRegistry.fetchSnapshot`: like the crypto
pass but providers with `requiresKey` and no configured key are skipped
before any call is attempted. -/
def stockPass1 (hasKey skip : String → Bool) :
    List ProviderM → Option (List Nat) × Nat × List RegEvent
  | [] => (none, 0, [])
  | p :: rest =>
    if p.snapshotCap = false then stockPass1 hasKey skip rest
    else if p.requiresKey && !(hasKey p.id) then stockPass1 hasKey skip rest
    else if skip p.id then stockPass1 hasKey skip rest
    else
      match p.outcome with
      | .throws =>
        let r := stockPass1 hasKey skip rest
        (r.1, r.2.1 + 1, .called p.id :: .optRecord p.id false :: r.2.2)
      | .returns l =>
        if l.isEmpty then
          let r := stockPass1 hasKey skip rest
          (r.1, r.2.1 + 1, .called p.id :: .optRecord p.id true :: r.2.2)
        else
          (some l, 1, [.called p.id, .optRecord p.id true])

/-- Fallback pass of `StockProviderRegistry.fetchSnapshot`: no optimizer
veto, direct provider calls, but providers missing a required key are still
skipped. -/
def stockPass2 (hasKey : String → Bool) : List ProviderM → Option (List Nat) × List RegEvent
  | [] => (none, [])
  | p :: rest =>
    if p.snapshotCap = false then stockPass2 hasKey rest
    else if p.requiresKey && !(hasKey p.id) then stockPass2 hasKey rest
    else
      match p.outcome with
      | .throws =>
        let r := stockPass2 hasKey rest
        (r.1, .called p.id :: r.2)
      | .returns l =>
        if l.isEmpty then
          let r := stockPass2 hasKey rest
          (r.1, .called p.id :: r.2)
        else
          (some l, [.called p.id])

/-- `StockProviderRegistry.fetchSnapshot(symbols)`: optimized pass, fallback
pass when zero providers were attempted, and an empty array (with a logged
warning) instead of a thrown error on total failure. -/
def stockFetchSnapshot (hasKey skip : String → Bool) (optimized static : List ProviderM) :
    Except String (List Nat) × List RegEvent :=
  let r1 := stockPass1 hasKey skip optimized
  match r1.1 with
  | some l => (.ok l, r1.2.2)
  | none =>
    if r1.2.1 = 0 then
      let r2 := stockPass2 hasKey static
      match r2.1 with
      | some l => (.ok l, r1.2.2 ++ r2.2)
      | none => (.ok [], r1.2.2 ++ r2.2)
    else
      (.ok [], r1.2.2)

/-- A provider the crypto pass attempts: has the `snapshot` capability and
is not vetoed by `shouldSkipProvider` (the crypto registry has no key
filter). -/
def cryptoAttempt (skip : String → Bool) (p : ProviderM) : Bool :=
  p.snapshotCap && !(skip p.id)

/-- A provider the stock pass attempts: additionally requires the key
filter to pass. -/
def stockAttempt (hasKey skip : String → Bool) (p : ProviderM) : Bool :=
  p.snapshotCap && !(p.requiresKey && !(hasKey p.id)) && !(skip p.id)

/-- `CryptoCompareProvider` as constructed with no `CRYPTOCOMPARE_KEY` in
the environment: `fetchSnapshot` throws `'CryptoCompare API key not
provided'` before ever reaching its circuit breaker, so its modelled
outcome is `throws`.  The crypto provider interface has no `requiresKey`
field; the flag here records that the source class does demand a key. -/
def cryptoCompareNoKey : ProviderM :=
  { id := "cryptocompare", priority := 5, snapshotCap := true, requiresKey := true,
    outcome := .throws }

/-! ## Market service read path (`src/server/services/marketService.ts`,
`MarketService.getMarketSnapshot`)

The collaborators are abstracted by their responses: `cached` is what
`marketCache.get(cacheKey)` returns (always an array when present, so the
`Array.isArray` guard passes), `fetchResult` is the behaviour of the
registry's `fetchSnapshot`, and `storeFallback` is the batch that
`storage.getMarketDataBatch` returns (rows modelled already in record
shape; the source maps row fields one-to-one into records).  The effect
trace records which collaborators the call touches, in order.
-/

/-- One observable collaborator interaction of `getMarketSnapshot`. -/
inductive ServiceEffect where
  | cacheGet
  | registryFetch
  | cacheSet
  | storeSave
  | storeGetBatch
  deriving DecidableEq, Repr

/-- `MarketService.getMarketSnapshot(kind, symbols)`: return the cached
array if present; otherwise call the registry's `fetchSnapshot`, and on
success cache the data and persist it, while on a thrown error fall back to
the persistent store (returning `[]` when that is also empty). -/
def getMarketSnapshot (cached : Option (List Nat)) (fetchResult : Except String (List Nat))
    (storeFallback : List Nat) : List Nat × List ServiceEffect :=
  match cached with
  | some data => (data, [.cacheGet])
  | none =>
    match fetchResult with
    | .ok data => (data, [.cacheGet, .registryFetch, .cacheSet, .storeSave])
    | .error _ =>
      if 0 < storeFallback.length then
        (storeFallback, [.cacheGet, .registryFetch, .storeGetBatch])
      else
        ([], [.cacheGet, .registryFetch, .storeGetBatch])

/-! ### Registry lemmas -/

theorem cryptoPass1_none_of_failsOrEmpty (skip : String → Bool) (l : List ProviderM)
    (h : ∀ p ∈ l, failsOrEmpty p = true) : (cryptoPass1 skip l).1 = none := by
  induction l with
  | nil => rfl
  | cons p rest ih =>
    have hp := h p (List.mem_cons_self p rest)
    have hrest : ∀ q ∈ rest, failsOrEmpty q = true :=
      fun q hq => h q (List.mem_cons_of_mem p hq)
    simp only [cryptoPass1]
    split
    · exact ih hrest
    · split
      · exact ih hrest
      · split
        · simpa using ih hrest
        · next l' heq =>
          split
          · simpa using ih hrest
          · next hne =>
            exfalso
            simp only [failsOrEmpty, heq] at hp
            exact hne hp

theorem cryptoPass2_none_of_failsOrEmpty (l : List ProviderM)
    (h : ∀ p ∈ l, failsOrEmpty p = true) : (cryptoPass2 l).1 = none := by
  induction l with
  | nil => rfl
  | cons p rest ih =>
    have hp := h p (List.mem_cons_self p rest)
    have hrest : ∀ q ∈ rest, failsOrEmpty q = true :=
      fun q hq => h q (List.mem_cons_of_mem p hq)
    simp only [cryptoPass2]
    split
    · exact ih hrest
    · split
      · simpa using ih hrest
      · next l' heq =>
        split
        · simpa using ih hrest
        · next hne =>
          exfalso
          simp only [failsOrEmpty, heq] at hp
          exact hne hp

theorem stockPass1_none_of_failsOrEmpty (hasKey skip : String → Bool) (l : List ProviderM)
    (h : ∀ p ∈ l, failsOrEmpty p = true) : (stockPass1 hasKey skip l).1 = none := by
  induction l with
  | nil => rfl
  | cons p rest ih =>
    have hp := h p (List.mem_cons_self p rest)
    have hrest : ∀ q ∈ rest, failsOrEmpty q = true :=
      fun q hq => h q (List.mem_cons_of_mem p hq)
    simp only [stockPass1]
    split
    · exact ih hrest
    · split
      · exact ih hrest
      · split
        · exact ih hrest
        · split
          · simpa using ih hrest
          · next l' heq =>
            split
            · simpa using ih hrest
            · next hne =>
              exfalso
              simp only [failsOrEmpty, heq] at hp
              exact hne hp

theorem stockPass2_none_of_failsOrEmpty (hasKey : String → Bool) (l : List ProviderM)
    (h : ∀ p ∈ l, failsOrEmpty p = true) : (stockPass2 hasKey l).1 = none := by
  induction l with
  | nil => rfl
  | cons p rest ih =>
    have hp := h p (List.mem_cons_self p rest)
    have hrest : ∀ q ∈ rest, failsOrEmpty q = true :=
      fun q hq => h q (List.mem_cons_of_mem p hq)
    simp only [stockPass2]
    split
    · exact ih hrest
    · split
      · exact ih hrest
      · split
        · simpa using ih hrest
        · next l' heq =>
          split
          · simpa using ih hrest
          · next hne =>
            exfalso
            simp only [failsOrEmpty, heq] at hp
            exact hne hp

/-- Claim C2: when every eligible provider fails or returns empty in both
the optimized pass and the unfiltered fallback pass, the crypto registry's
`fetchSnapshot` throws the `'All crypto providers failed'` error while the
stock registry's returns an empty array. -/
theorem registry_total_failure (skip hasKey : String → Bool)
    (optC staticC optS staticS : List ProviderM)
    (h1 : ∀ p ∈ optC, failsOrEmpty p = true)
    (h2 : ∀ p ∈ staticC, failsOrEmpty p = true)
    (h3 : ∀ p ∈ optS, failsOrEmpty p = true)
    (h4 : ∀ p ∈ staticS, failsOrEmpty p = true) :
    (cryptoFetchSnapshot skip optC staticC).1 = .error "All crypto providers failed" ∧
      (stockFetchSnapshot hasKey skip optS staticS).1 = .ok [] := by
  constructor
  · have ha := cryptoPass1_none_of_failsOrEmpty skip optC h1
    have hb := cryptoPass2_none_of_failsOrEmpty staticC h2
    simp only [cryptoFetchSnapshot, ha, hb]
    split <;> rfl
  · have ha := stockPass1_none_of_failsOrEmpty hasKey skip optS h3
    have hb := stockPass2_none_of_failsOrEmpty hasKey staticS h4
    simp only [stockFetchSnapshot, ha, hb]
    split <;> rfl

/-- A provider whose `fetchSnapshot` throws (used by concrete witnesses). -/
def provThrow : ProviderM :=
  { id := "t", priority := 1, snapshotCap := true, requiresKey := false,
    outcome := .throws }

/-- A provider whose `fetchSnapshot` succeeds with an empty array (used by
concrete witnesses). -/
def provEmpty : ProviderM :=
  { id := "e", priority := 2, snapshotCap := true, requiresKey := false,
    outcome := .returns [] }

/-- Witness for C2 with one throwing and one empty-returning provider in
each list. -/
theorem registry_total_failure_witness :
    (∀ p ∈ [provThrow, provEmpty], failsOrEmpty p = true) ∧
      ((cryptoFetchSnapshot (fun _ => false) [provThrow, provEmpty]
          [provThrow, provEmpty]).1 = .error "All crypto providers failed" ∧
        (stockFetchSnapshot (fun _ => true) (fun _ => false) [provThrow, provEmpty]
          [provThrow, provEmpty]).1 = .ok []) :=
  ⟨by decide,
   registry_total_failure (fun _ => false) (fun _ => true)
     [provThrow, provEmpty] [provThrow, provEmpty]
     [provThrow, provEmpty] [provThrow, provEmpty]
     (by decide) (by decide) (by decide) (by decide)⟩

theorem cryptoPass1_first_success (skip : String → Bool) (pre : List ProviderM)
    (p : ProviderM) (post : List ProviderM) (l : List Nat)
    (hpre : ∀ q ∈ pre, cryptoAttempt skip q = false ∨ failsOrEmpty q = true)
    (hp : cryptoAttempt skip p = true) (hout : p.outcome = .returns l)
    (hl : l.isEmpty = false) :
    (cryptoPass1 skip (pre ++ p :: post)).1 = some l ∧
      ∀ e ∈ (cryptoPass1 skip (pre ++ p :: post)).2.2,
        e.pid ∈ pre.map ProviderM.id ++ [p.id] := by
  have hcap : p.snapshotCap = true := by
    have h := hp
    simp only [cryptoAttempt, Bool.and_eq_true] at h
    exact h.1
  have hskip : skip p.id = false := by
    have h := hp
    simp only [cryptoAttempt, Bool.and_eq_true] at h
    simpa using h.2
  induction pre with
  | nil =>
    have heq : cryptoPass1 skip ([] ++ p :: post) =
        (some l, 1, [.called p.id, .optRecord p.id true]) := by
      simp [cryptoPass1, hcap, hskip, hout, hl]
    rw [heq]
    refine ⟨rfl, ?_⟩
    intro e he
    simp only [List.map_nil, List.nil_append, List.mem_singleton]
    rcases List.mem_cons.mp he with h | h
    · rw [h]; rfl
    · rcases List.mem_cons.mp h with h2 | h2
      · rw [h2]; rfl
      · simp at h2
  | cons q pre ih =>
    have hq := hpre q (List.mem_cons_self q pre)
    have hpre2 : ∀ r ∈ pre, cryptoAttempt skip r = false ∨ failsOrEmpty r = true :=
      fun r hr => hpre r (List.mem_cons_of_mem q hr)
    obtain ⟨ih1, ih2⟩ := ih hpre2
    have hsub : ∀ (s : String), s ∈ pre.map ProviderM.id ++ [p.id] →
        s ∈ (q :: pre).map ProviderM.id ++ [p.id] := by
      intro s hs
      simp only [List.map_cons, List.cons_append, List.mem_cons]
      exact Or.inr (by simpa using hs)
    by_cases hc1 : q.snapshotCap = false
    · have heq : cryptoPass1 skip ((q :: pre) ++ p :: post) =
          cryptoPass1 skip (pre ++ p :: post) := by
        simp [cryptoPass1, hc1]
      rw [heq]
      exact ⟨ih1, fun e he => hsub _ (ih2 e he)⟩
    · have hcapq : q.snapshotCap = true := by
        cases hcs : q.snapshotCap
        · exact absurd hcs hc1
        · rfl
      by_cases hc2 : skip q.id = true
      · have heq : cryptoPass1 skip ((q :: pre) ++ p :: post) =
            cryptoPass1 skip (pre ++ p :: post) := by
          simp [cryptoPass1, hcapq, hc2]
        rw [heq]
        exact ⟨ih1, fun e he => hsub _ (ih2 e he)⟩
      · have hskq : skip q.id = false := by
          cases hcs : skip q.id
          · rfl
          · exact absurd hcs hc2
        have hfe : failsOrEmpty q = true := by
          rcases hq with hq | hq
          · exfalso
            rw [cryptoAttempt, hcapq, hskq] at hq
            simp at hq
          · exact hq
        cases hoq : q.outcome with
        | throws =>
          have heq : cryptoPass1 skip ((q :: pre) ++ p :: post) =
              ((cryptoPass1 skip (pre ++ p :: post)).1,
               (cryptoPass1 skip (pre ++ p :: post)).2.1 + 1,
               .called q.id :: .optRecord q.id false ::
                 (cryptoPass1 skip (pre ++ p :: post)).2.2) := by
            simp [cryptoPass1, hcapq, hskq, hoq]
          rw [heq]
          refine ⟨ih1, ?_⟩
          intro e he
          rcases List.mem_cons.mp he with h | h
          · rw [h]; simp [RegEvent.pid]
          · rcases List.mem_cons.mp h with h2 | h2
            · rw [h2]; simp [RegEvent.pid]
            · exact hsub _ (ih2 e h2)
        | returns lq =>
          have hemp : lq.isEmpty = true := by
            simp only [failsOrEmpty, hoq] at hfe
            exact hfe
          have heq : cryptoPass1 skip ((q :: pre) ++ p :: post) =
              ((cryptoPass1 skip (pre ++ p :: post)).1,
               (cryptoPass1 skip (pre ++ p :: post)).2.1 + 1,
               .called q.id :: .optRecord q.id true ::
                 (cryptoPass1 skip (pre ++ p :: post)).2.2) := by
            simp [cryptoPass1, hcapq, hskq, hoq, hemp]
          rw [heq]
          refine ⟨ih1, ?_⟩
          intro e he
          rcases List.mem_cons.mp he with h | h
          · rw [h]; simp [RegEvent.pid]
          · rcases List.mem_cons.mp h with h2 | h2
            · rw [h2]; simp [RegEvent.pid]
            · exact hsub _ (ih2 e h2)

theorem stockPass1_first_success (hasKey skip : String → Bool) (pre : List ProviderM)
    (p : ProviderM) (post : List ProviderM) (l : List Nat)
    (hpre : ∀ q ∈ pre, stockAttempt hasKey skip q = false ∨ failsOrEmpty q = true)
    (hp : stockAttempt hasKey skip p = true) (hout : p.outcome = .returns l)
    (hl : l.isEmpty = false) :
    (stockPass1 hasKey skip (pre ++ p :: post)).1 = some l ∧
      ∀ e ∈ (stockPass1 hasKey skip (pre ++ p :: post)).2.2,
        e.pid ∈ pre.map ProviderM.id ++ [p.id] := by
  have hp3 : p.snapshotCap = true ∧
      (p.requiresKey && !(hasKey p.id)) = false ∧ skip p.id = false := by
    have h := hp
    simp only [stockAttempt, Bool.and_eq_true] at h
    refine ⟨h.1.1, ?_, by simpa using h.2⟩
    have := h.1.2
    cases hkv : (p.requiresKey && !(hasKey p.id))
    · rfl
    · rw [hkv] at this; simp at this
  obtain ⟨hcap, hkeyp, hskip⟩ := hp3
  induction pre with
  | nil =>
    have heq : stockPass1 hasKey skip ([] ++ p :: post) =
        (some l, 1, [.called p.id, .optRecord p.id true]) := by
      simp [stockPass1, hcap, hkeyp, hskip, hout, hl]
    rw [heq]
    refine ⟨rfl, ?_⟩
    intro e he
    simp only [List.map_nil, List.nil_append, List.mem_singleton]
    rcases List.mem_cons.mp he with h | h
    · rw [h]; rfl
    · rcases List.mem_cons.mp h with h2 | h2
      · rw [h2]; rfl
      · simp at h2
  | cons q pre ih =>
    have hq := hpre q (List.mem_cons_self q pre)
    have hpre2 : ∀ r ∈ pre, stockAttempt hasKey skip r = false ∨ failsOrEmpty r = true :=
      fun r hr => hpre r (List.mem_cons_of_mem q hr)
    obtain ⟨ih1, ih2⟩ := ih hpre2
    have hsub : ∀ (s : String), s ∈ pre.map ProviderM.id ++ [p.id] →
        s ∈ (q :: pre).map ProviderM.id ++ [p.id] := by
      intro s hs
      simp only [List.map_cons, List.cons_append, List.mem_cons]
      exact Or.inr (by simpa using hs)
    by_cases hc1 : q.snapshotCap = false
    · have heq : stockPass1 hasKey skip ((q :: pre) ++ p :: post) =
          stockPass1 hasKey skip (pre ++ p :: post) := by
        simp [stockPass1, hc1]
      rw [heq]
      exact ⟨ih1, fun e he => hsub _ (ih2 e he)⟩
    · have hcapq : q.snapshotCap = true := by
        cases hcs : q.snapshotCap
        · exact absurd hcs hc1
        · rfl
      by_cases hck : (q.requiresKey && !(hasKey q.id)) = true
      · have heq : stockPass1 hasKey skip ((q :: pre) ++ p :: post) =
            stockPass1 hasKey skip (pre ++ p :: post) := by
          simp [stockPass1, hcapq, hck]
        rw [heq]
        exact ⟨ih1, fun e he => hsub _ (ih2 e he)⟩
      · have hckf : (q.requiresKey && !(hasKey q.id)) = false := by
          cases hcs : (q.requiresKey && !(hasKey q.id))
          · rfl
          · exact absurd hcs hck
        by_cases hc2 : skip q.id = true
        · have heq : stockPass1 hasKey skip ((q :: pre) ++ p :: post) =
              stockPass1 hasKey skip (pre ++ p :: post) := by
            simp [stockPass1, hcapq, hckf, hc2]
          rw [heq]
          exact ⟨ih1, fun e he => hsub _ (ih2 e he)⟩
        · have hskq : skip q.id = false := by
            cases hcs : skip q.id
            · rfl
            · exact absurd hcs hc2
          have hfe : failsOrEmpty q = true := by
            rcases hq with hq | hq
            · exfalso
              rw [stockAttempt, hcapq, hckf, hskq] at hq
              simp at hq
            · exact hq
          cases hoq : q.outcome with
          | throws =>
            have heq : stockPass1 hasKey skip ((q :: pre) ++ p :: post) =
                ((stockPass1 hasKey skip (pre ++ p :: post)).1,
                 (stockPass1 hasKey skip (pre ++ p :: post)).2.1 + 1,
                 .called q.id :: .optRecord q.id false ::
                   (stockPass1 hasKey skip (pre ++ p :: post)).2.2) := by
              simp [stockPass1, hcapq, hckf, hskq, hoq]
            rw [heq]
            refine ⟨ih1, ?_⟩
            intro e he
            rcases List.mem_cons.mp he with h | h
            · rw [h]; simp [RegEvent.pid]
            · rcases List.mem_cons.mp h with h2 | h2
              · rw [h2]; simp [RegEvent.pid]
              · exact hsub _ (ih2 e h2)
          | returns lq =>
            have hemp : lq.isEmpty = true := by
              simp only [failsOrEmpty, hoq] at hfe
              exact hfe
            have heq : stockPass1 hasKey skip ((q :: pre) ++ p :: post) =
                ((stockPass1 hasKey skip (pre ++ p :: post)).1,
                 (stockPass1 hasKey skip (pre ++ p :: post)).2.1 + 1,
                 .called q.id :: .optRecord q.id true ::
                   (stockPass1 hasKey skip (pre ++ p :: post)).2.2) := by
              simp [stockPass1, hcapq, hckf, hskq, hoq, hemp]
            rw [heq]
            refine ⟨ih1, ?_⟩
            intro e he
            rcases List.mem_cons.mp he with h | h
            · rw [h]; simp [RegEvent.pid]
            · rcases List.mem_cons.mp h with h2 | h2
              · rw [h2]; simp [RegEvent.pid]
              · exact hsub _ (ih2 e h2)

/-- Claim C5: in both registries' `fetchSnapshot` walks, the first
attempted provider whose `fetchSnapshot` returns a non-empty array wins:
its records are returned immediately, and every event of the walk concerns
only the providers up to and including the winner — no later provider is
called. -/
theorem registry_first_success (skip hasKey : String → Bool)
    (preC : List ProviderM) (pC : ProviderM) (postC staticC : List ProviderM) (lC : List Nat)
    (preS : List ProviderM) (pS : ProviderM) (postS staticS : List ProviderM) (lS : List Nat)
    (hpreC : ∀ q ∈ preC, cryptoAttempt skip q = false ∨ failsOrEmpty q = true)
    (hpC : cryptoAttempt skip pC = true) (houtC : pC.outcome = .returns lC)
    (hlC : lC.isEmpty = false)
    (hpreS : ∀ q ∈ preS, stockAttempt hasKey skip q = false ∨ failsOrEmpty q = true)
    (hpS : stockAttempt hasKey skip pS = true) (houtS : pS.outcome = .returns lS)
    (hlS : lS.isEmpty = false) :
    ((cryptoFetchSnapshot skip (preC ++ pC :: postC) staticC).1 = .ok lC ∧
        ∀ e ∈ (cryptoFetchSnapshot skip (preC ++ pC :: postC) staticC).2,
          e.pid ∈ preC.map ProviderM.id ++ [pC.id]) ∧
      ((stockFetchSnapshot hasKey skip (preS ++ pS :: postS) staticS).1 = .ok lS ∧
        ∀ e ∈ (stockFetchSnapshot hasKey skip (preS ++ pS :: postS) staticS).2,
          e.pid ∈ preS.map ProviderM.id ++ [pS.id]) := by
  obtain ⟨hc1, hc2⟩ := cryptoPass1_first_success skip preC pC postC lC hpreC hpC houtC hlC
  obtain ⟨hs1, hs2⟩ := stockPass1_first_success hasKey skip preS pS postS lS hpreS hpS houtS hlS
  constructor
  · constructor
    · simp only [cryptoFetchSnapshot, hc1]
    · intro e he
      simp only [cryptoFetchSnapshot, hc1] at he
      exact hc2 e he
  · constructor
    · simp only [stockFetchSnapshot, hs1]
    · intro e he
      simp only [stockFetchSnapshot, hs1] at he
      exact hs2 e he

/-- The winning provider of the C5 witness walk: non-empty snapshot. -/
def provWin : ProviderM :=
  { id := "B", priority := 2, snapshotCap := true, requiresKey := false,
    outcome := .returns [10, 20] }

/-- A later provider that would also succeed but must never be called. -/
def provLater : ProviderM :=
  { id := "C", priority := 3, snapshotCap := true, requiresKey := false,
    outcome := .returns [30] }

/-- Witness for C5: provider A throws, B returns non-empty data, C would
succeed; both registries return B's data and no event concerns C. -/
theorem registry_first_success_witness :
    (∀ q ∈ [provThrow], cryptoAttempt (fun _ => false) q = false ∨ failsOrEmpty q = true) ∧
      cryptoAttempt (fun _ => false) provWin = true ∧
      provWin.outcome = .returns [10, 20] ∧
      ([10, 20] : List Nat).isEmpty = false ∧
      (∀ q ∈ [provThrow],
        stockAttempt (fun _ => true) (fun _ => false) q = false ∨ failsOrEmpty q = true) ∧
      stockAttempt (fun _ => true) (fun _ => false) provWin = true ∧
      (((cryptoFetchSnapshot (fun _ => false) ([provThrow] ++ provWin :: [provLater]) []).1 =
            .ok [10, 20] ∧
          ∀ e ∈ (cryptoFetchSnapshot (fun _ => false)
              ([provThrow] ++ provWin :: [provLater]) []).2,
            e.pid ∈ [provThrow].map ProviderM.id ++ [provWin.id]) ∧
        ((stockFetchSnapshot (fun _ => true) (fun _ => false)
              ([provThrow] ++ provWin :: [provLater]) []).1 = .ok [10, 20] ∧
          ∀ e ∈ (stockFetchSnapshot (fun _ => true) (fun _ => false)
              ([provThrow] ++ provWin :: [provLater]) []).2,
            e.pid ∈ [provThrow].map ProviderM.id ++ [provWin.id])) :=
  ⟨by decide, by decide, by decide, by decide, by decide, by decide,
   registry_first_success (fun _ => false) (fun _ => true)
     [provThrow] provWin [provLater] [] [10, 20]
     [provThrow] provWin [provLater] [] [10, 20]
     (by decide) (by decide) (by decide) (by decide)
     (by decide) (by decide) (by decide) (by decide)⟩

/-! ### Key-filter behaviour (C6) -/

theorem stockPass1_keyless_silent (hasKey skip : String → Bool) (s : String)
    (l : List ProviderM) (hk : hasKey s = false)
    (hall : ∀ q ∈ l, q.id = s → q.requiresKey = true) :
    ∀ e ∈ (stockPass1 hasKey skip l).2.2, e.pid ≠ s := by
  induction l with
  | nil => intro e he; simp [stockPass1] at he
  | cons q rest ih =>
    have hqid : q.id = s → q.requiresKey = true := hall q (List.mem_cons_self q rest)
    have hrest : ∀ r ∈ rest, r.id = s → r.requiresKey = true :=
      fun r hr => hall r (List.mem_cons_of_mem q hr)
    intro e he
    simp only [stockPass1] at he
    split at he
    · exact ih hrest e he
    · split at he
      · exact ih hrest e he
      · next hkeyf =>
        have hqs : q.id ≠ s := by
          intro heq
          apply hkeyf
          rw [hqid heq, heq, hk]
          rfl
        split at he
        · exact ih hrest e he
        · split at he
          · rcases List.mem_cons.mp he with h | h
            · rw [h]; simpa [RegEvent.pid] using hqs
            · rcases List.mem_cons.mp h with h2 | h2
              · rw [h2]; simpa [RegEvent.pid] using hqs
              · exact ih hrest e h2
          · split at he
            · rcases List.mem_cons.mp he with h | h
              · rw [h]; simpa [RegEvent.pid] using hqs
              · rcases List.mem_cons.mp h with h2 | h2
                · rw [h2]; simpa [RegEvent.pid] using hqs
                · exact ih hrest e h2
            · rcases List.mem_cons.mp he with h | h
              · rw [h]; simpa [RegEvent.pid] using hqs
              · rcases List.mem_cons.mp h with h2 | h2
                · rw [h2]; simpa [RegEvent.pid] using hqs
                · simp at h2

theorem stockPass2_keyless_silent (hasKey : String → Bool) (s : String)
    (l : List ProviderM) (hk : hasKey s = false)
    (hall : ∀ q ∈ l, q.id = s → q.requiresKey = true) :
    ∀ e ∈ (stockPass2 hasKey l).2, e.pid ≠ s := by
  induction l with
  | nil => intro e he; simp [stockPass2] at he
  | cons q rest ih =>
    have hqid : q.id = s → q.requiresKey = true := hall q (List.mem_cons_self q rest)
    have hrest : ∀ r ∈ rest, r.id = s → r.requiresKey = true :=
      fun r hr => hall r (List.mem_cons_of_mem q hr)
    intro e he
    simp only [stockPass2] at he
    split at he
    · exact ih hrest e he
    · split at he
      · exact ih hrest e he
      · next hkeyf =>
        have hqs : q.id ≠ s := by
          intro heq
          apply hkeyf
          rw [hqid heq, heq, hk]
          rfl
        split at he
        · rcases List.mem_cons.mp he with h | h
          · rw [h]; simpa [RegEvent.pid] using hqs
          · exact ih hrest e h
        · split at he
          · rcases List.mem_cons.mp he with h | h
            · rw [h]; simpa [RegEvent.pid] using hqs
            · exact ih hrest e h
          · rcases List.mem_cons.mp he with h | h
            · rw [h]; simpa [RegEvent.pid] using hqs
            · simp at h

/-- Claim C6 (amended): the stock registry excludes a provider requiring an
absent API key before any call in both walk passes, so no call or optimizer
record ever concerns it; the crypto registry has no such filter — a
key-requiring crypto provider without its key (CryptoCompare) is attempted,
and its missing-key throw is recorded by the optimizer as a runtime
failure. -/
theorem keyless_provider_exclusion (hasKey skip : String → Bool) (s : String)
    (optimized static : List ProviderM) (hk : hasKey s = false)
    (h1 : ∀ q ∈ optimized, q.id = s → q.requiresKey = true)
    (h2 : ∀ q ∈ static, q.id = s → q.requiresKey = true) :
    (∀ e ∈ (stockFetchSnapshot hasKey skip optimized static).2, e.pid ≠ s) ∧
      RegEvent.optRecord "cryptocompare" false ∈
        (cryptoFetchSnapshot (fun _ => false) [cryptoCompareNoKey] [cryptoCompareNoKey]).2 := by
  constructor
  · intro e he
    have hp1 := stockPass1_keyless_silent hasKey skip s optimized hk h1
    have hp2 := stockPass2_keyless_silent hasKey s static hk h2
    simp only [stockFetchSnapshot] at he
    split at he
    · exact hp1 e he
    · split at he
      · split at he
        · rcases List.mem_append.mp he with h | h
          · exact hp1 e h
          · exact hp2 e h
        · rcases List.mem_append.mp he with h | h
          · exact hp1 e h
          · exact hp2 e h
      · exact hp1 e he
  · decide

/-- A key-requiring stock provider used by the C6 witness. -/
def stockKeyedProv : ProviderM :=
  { id := "iex", priority := 1, snapshotCap := true, requiresKey := true,
    outcome := .returns [5] }

/-- Witness for C6 (amended) with the `iex` provider and no keys
configured. -/
theorem keyless_provider_exclusion_witness :
    ((fun (_ : String) => false) "iex" = false) ∧
      (∀ q ∈ [stockKeyedProv], q.id = "iex" → q.requiresKey = true) ∧
      ((∀ e ∈ (stockFetchSnapshot (fun _ => false) (fun _ => false)
            [stockKeyedProv] [stockKeyedProv]).2, e.pid ≠ "iex") ∧
        RegEvent.optRecord "cryptocompare" false ∈
          (cryptoFetchSnapshot (fun _ => false) [cryptoCompareNoKey] [cryptoCompareNoKey]).2) :=
  ⟨rfl, by decide,
   keyless_provider_exclusion (fun _ => false) (fun _ => false) "iex"
     [stockKeyedProv] [stockKeyedProv] rfl (by decide) (by decide)⟩

/-- Claim C6, counterexample to the claim as stated for the crypto
registry: with no `CRYPTOCOMPARE_KEY`, the crypto walk still attempts
CryptoCompare (the crypto registry has no key filter), and the missing-key
throw is observed as a runtime failure recorded by the optimizer
(`recordProviderRequest` records a failed request), contradicting "the
absence of a key is never observed as a runtime failure". -/
theorem crypto_keyless_recorded_counterexample :
    RegEvent.called "cryptocompare" ∈
        (cryptoFetchSnapshot (fun _ => false) [cryptoCompareNoKey] [cryptoCompareNoKey]).2 ∧
      RegEvent.optRecord "cryptocompare" false ∈
        (cryptoFetchSnapshot (fun _ => false) [cryptoCompareNoKey] [cryptoCompareNoKey]).2 := by
  decide

/-! ### Market service read path (C1) -/

/-- Claim C1, counterexample: on a cache miss, `getMarketSnapshot` itself
invokes the registry's `fetchSnapshot` — the read path does trigger a live
provider fetch, contradicting the claim. -/
theorem service_read_calls_registry_counterexample :
    ServiceEffect.registryFetch ∈ (getMarketSnapshot none (.ok [1]) []).2 := by
  decide

/-- Claim C1 (amended): the read path consults the cache first and returns
a hit without contacting any other collaborator; on a cache miss it itself
invokes the registry's `fetchSnapshot`; the persistent fallback store is
consulted exactly when that fetch throws. -/
theorem service_read_path (cached : Option (List Nat))
    (fetchResult : Except String (List Nat)) (storeFallback : List Nat) :
    (ServiceEffect.registryFetch ∈ (getMarketSnapshot cached fetchResult storeFallback).2 ↔
        cached = none) ∧
      (ServiceEffect.storeGetBatch ∈ (getMarketSnapshot cached fetchResult storeFallback).2 ↔
        cached = none ∧ ∃ msg, fetchResult = .error msg) ∧
      ∀ d, getMarketSnapshot (some d) fetchResult storeFallback = (d, [ServiceEffect.cacheGet]) := by
  refine ⟨?_, ?_, fun d => rfl⟩
  · cases cached with
    | some d => simp [getMarketSnapshot]
    | none =>
      cases fetchResult with
      | ok data => simp [getMarketSnapshot]
      | error msg =>
        simp only [getMarketSnapshot]
        split <;> simp
  · cases cached with
    | some d => simp [getMarketSnapshot]
    | none =>
      cases fetchResult with
      | ok data => simp [getMarketSnapshot]
      | error msg =>
        simp only [getMarketSnapshot]
        split <;> simp

/-! ## Normalizer (`src/server/routes.ts`, `normalizeMarketData`)

Raw provider responses are JS objects; the fields the normalizer reads are
modelled as optional values (`none` = the property is absent/undefined).
JS number coercions are modelled explicitly: `parseFloat(undefined)` is
`NaN`, and `a || b` falls through on `undefined` and on the falsy values
`0` and `""`.
-/

/-- A JS numeric value as it lands in an output field: `undefined`, `NaN`
(from `parseFloat` of a missing value), or a number. -/
inductive JsNum where
  | undef
  | nan
  | num (q : ℚ)
  deriving DecidableEq, Repr

/-- `parseFloat` on a possibly-undefined numeric value. -/
def parseFloat : Option ℚ → JsNum
  | none => .nan
  | some q => .num q

/-- JS `a || b` on possibly-undefined numbers (`0` is falsy). -/
def jsOrNum (a b : Option ℚ) : Option ℚ :=
  match a with
  | some q => if q = 0 then b else some q
  | none => b

/-- JS `a || b` on possibly-undefined strings (`""` is falsy). -/
def jsOrStr (a b : Option String) : Option String :=
  match a with
  | some s => if s = "" then b else some s
  | none => b

/-- A possibly-undefined number used directly as a field value. -/
def toJsNum : Option ℚ → JsNum
  | none => .undef
  | some q => .num q

/-- JS `String.replace` with a string pattern: replace only the first
occurrence (used for `pair?.replace('USD', '')`). -/
def replaceFirst (s pat : String) : String :=
  match s.splitOn pat with
  | [] => s
  | [x] => x
  | x :: rest => x ++ String.intercalate pat rest

/-- The nested `quotes.USD` object of CoinPaprika raw data. -/
structure RawUsdQuote where
  price : Option ℚ := none
  percent_change_24h : Option ℚ := none
  volume_24h : Option ℚ := none
  market_cap : Option ℚ := none
  deriving DecidableEq, Repr

/-- The `quotes` object of CoinPaprika raw data. -/
structure RawQuotes where
  USD : Option RawUsdQuote := none
  deriving DecidableEq, Repr

/-- One Kraken `result` ticker entry: `c` (close array) and `v` (volume
array). -/
structure RawKrakenTicker where
  c : List ℚ := []
  v : List ℚ := []
  deriving DecidableEq, Repr

/-- The raw provider response object, restricted to the properties the
normalizer reads; every property may be absent. -/
structure RawData where
  symbol : Option String := none
  name : Option String := none
  companyName : Option String := none
  price : Option ℚ := none
  c : Option ℚ := none
  priceChangePercent : Option ℚ := none
  P : Option ℚ := none
  volume : Option ℚ := none
  v : Option ℚ := none
  current_price : Option ℚ := none
  price_change_percentage_24h : Option ℚ := none
  total_volume : Option ℚ := none
  market_cap : Option ℚ := none
  latestPrice : Option ℚ := none
  changePercent : Option ℚ := none
  marketCap : Option ℚ := none
  dp : Option ℚ := none
  last : Option ℚ := none
  close : Option ℚ := none
  change24h : Option ℚ := none
  quotes : Option RawQuotes := none
  result : Option (List (String × RawKrakenTicker)) := none
  deriving DecidableEq, Repr

/-- Market kind enum. -/
inductive MarketKind where
  | crypto
  | stock
  deriving DecidableEq, Repr

/-- The canonical output record (`UnifiedMarketData`); `symbol` and `name`
may come out undefined when a named-source branch reads absent raw
properties. -/
structure UnifiedMarketData where
  symbol : Option String
  name : Option String
  price : JsNum
  change24h : JsNum
  volume : JsNum
  marketCap : JsNum
  timestamp : Nat
  source : String
  kind : MarketKind
  deriving DecidableEq, Repr

/-- `normalizeMarketData(rawData, source, kind)`: per-source field mapping
with a generic fallback branch for unrecognized source ids. -/
def normalizeMarketData (rawData : RawData) (source : String) (kind : MarketKind)
    (now : Nat) : UnifiedMarketData :=
  if source = "binance" then
    { symbol := rawData.symbol
      name := rawData.symbol
      price := parseFloat (jsOrNum rawData.price rawData.c)
      change24h := parseFloat (jsOrNum rawData.priceChangePercent rawData.P)
      volume := parseFloat (jsOrNum rawData.volume rawData.v)
      marketCap := .undef
      timestamp := now, source := source, kind := kind }
  else if source = "coingecko" then
    { symbol := rawData.symbol.map String.toUpper
      name := rawData.name
      price := toJsNum rawData.current_price
      change24h := toJsNum rawData.price_change_percentage_24h
      volume := toJsNum rawData.total_volume
      marketCap := toJsNum rawData.market_cap
      timestamp := now, source := source, kind := kind }
  else if source = "coinpaprika" then
    { symbol := rawData.symbol.map String.toUpper
      name := rawData.name
      price := toJsNum (rawData.quotes.bind (fun q => q.USD.bind (fun u => u.price)))
      change24h :=
        toJsNum (rawData.quotes.bind (fun q => q.USD.bind (fun u => u.percent_change_24h)))
      volume := toJsNum (rawData.quotes.bind (fun q => q.USD.bind (fun u => u.volume_24h)))
      marketCap := toJsNum (rawData.quotes.bind (fun q => q.USD.bind (fun u => u.market_cap)))
      timestamp := now, source := source, kind := kind }
  else if source = "kraken" then
    let entries := rawData.result.getD []
    let pair : Option String := entries.head?.map (fun kv => kv.1)
    let data : Option RawKrakenTicker :=
      rawData.result.bind (fun es =>
        pair.bind (fun pr => (es.find? (fun kv => kv.1 == pr)).map (fun kv => kv.2)))
    { symbol := pair.map (fun pr => replaceFirst pr "USD")
      name := pair.map (fun pr => replaceFirst pr "USD")
      price := parseFloat (data.bind (fun d => d.c.head?))
      change24h := .undef
      volume := parseFloat (data.bind (fun d => d.v.get? 1))
      marketCap := .undef
      timestamp := now, source := source, kind := kind }
  else if source = "iex" then
    { symbol := rawData.symbol
      name := jsOrStr rawData.companyName rawData.symbol
      price := toJsNum rawData.latestPrice
      change24h :=
        match rawData.changePercent with
        | some q => if q = 0 then .undef else .num (q * 100)
        | none => .undef
      volume := toJsNum rawData.volume
      marketCap := toJsNum rawData.marketCap
      timestamp := now, source := source, kind := kind }
  else if source = "finnhub" then
    { symbol := rawData.symbol
      name := rawData.symbol
      price := toJsNum rawData.c
      change24h := toJsNum rawData.dp
      volume := .undef
      marketCap := .undef
      timestamp := now, source := source, kind := kind }
  else
    { symbol := jsOrStr rawData.symbol (some "UNKNOWN")
      name := jsOrStr rawData.name (jsOrStr rawData.symbol (some "Unknown"))
      price := parseFloat (jsOrNum rawData.price
        (jsOrNum rawData.last (jsOrNum rawData.close (some 0))))
      change24h := parseFloat (jsOrNum rawData.change24h
        (jsOrNum rawData.changePercent (some 0)))
      volume := parseFloat (jsOrNum rawData.volume (some 0))
      marketCap := parseFloat (jsOrNum rawData.marketCap (some 0))
      timestamp := now, source := source, kind := kind }

theorem jsOrStr_some_isSome (a : Option String) (s : String) :
    (jsOrStr a (some s)).isSome = true := by
  cases a with
  | none => rfl
  | some t =>
    simp only [jsOrStr]
    split <;> rfl

/-- Claim C9, counterexample: on an empty raw object the `binance` branch
produces `symbol = undefined` (it just copies the absent `rawData.symbol`),
so a supported source id does not always yield a defined symbol; and the
generic fallback branch parses the missing price to the number 0, not to
an absent value. -/
theorem normalize_empty_raw_counterexample :
    (normalizeMarketData {} "binance" .crypto 0).symbol = none ∧
      (normalizeMarketData {} "coinlore" .crypto 0).price = .num 0 := by
  constructor
  · rfl
  · rfl

/-- Claim C9 (amended): the normalizer is total on raw objects, but only
the generic fallback branch guarantees a defined symbol (via the
`|| 'UNKNOWN'` default); a named source branch such as `binance` propagates
an absent raw symbol as undefined; and in the fallback branch missing
numeric fields parse to the number 0 rather than staying absent. -/
theorem normalize_symbol_totality (raw : RawData) (kind : MarketKind) (now : Nat) :
    (normalizeMarketData raw "binance" kind now).symbol = raw.symbol ∧
      ((normalizeMarketData raw "coinlore" kind now).symbol).isSome = true ∧
      (normalizeMarketData {} "coinlore" kind now).price = .num 0 := by
  refine ⟨rfl, ?_, rfl⟩
  have hsym : (normalizeMarketData raw "coinlore" kind now).symbol =
      jsOrStr raw.symbol (some "UNKNOWN") := rfl
  rw [hsym]
  exact jsOrStr_some_isSome raw.symbol "UNKNOWN"

end FinChat
